import Mathlib

/-!
Shallow embedding of the daraz-mcp acquisition pipeline
(`src/server_robust.py`, with the variant coordinator and URL normalizer of
`src/server_merged.py`), together with theorems settling the frozen claims.

Modelling conventions:
* Python `float` prices are modelled as `ℚ` (every price the code builds is a
  decimal literal parsed from text, and the code only compares prices).
* Python `datetime` instants and hour durations are modelled as `ℚ`
  timestamps; only ordering and addition are used by the code.
* The SQLite table `search_cache` (one row per `cache_key` primary key) is
  modelled as an association list with `INSERT OR REPLACE` / `DELETE` /
  `SELECT` as functional operations; `json.dumps`/`json.loads` round-tripping
  of the result list is modelled as the identity.
* `hashlib.md5` applied to the key string is modelled as the identity on the
  key string (the code only ever uses the digest as an opaque dictionary key).
* Network and DOM effects are modelled by passing the two page fetchers as
  function arguments; invocation of a fetcher is made observable through
  explicit `Bool` fields of the result so that "the rendered path was not
  invoked" is a statable property.
* Python's `re` digits class `\d` is modelled as the ASCII digits.
-/

/-- ASCII digit test, the model of the regex class `\d`. -/
def isDigitCh (c : Char) : Bool :=
  c.isDigit

/-- Python `str.strip()`: drop leading and trailing whitespace. -/
def pyStrip (l : List Char) : List Char :=
  ((l.dropWhile Char.isWhitespace).reverse.dropWhile Char.isWhitespace).reverse

/-- Length beyond the first character of the currency token matched at the head
of the list by the alternation `Rs\.?|PKR|₨|rupees?|Rupees?` (case-insensitive,
alternatives tried in order), or `none` when no alternative matches here.
Mirrors the first `re.sub` of `_parse_price` (server_robust.py line 107). -/
def currencyExtraLen : List Char → Option Nat
  | [] => none
  | c0 :: rest =>
    if c0.toLower = 'r' then
      match rest with
      | [] => none
      | c1 :: rest2 =>
        if c1.toLower = 's' then
          -- `Rs\.?`: the optional dot is matched greedily
          match rest2 with
          | '.' :: _ => some 2
          | _ => some 1
        else if c1.toLower = 'u' then
          -- `rupees?` (the `Rupees?` alternative is subsumed by IGNORECASE)
          match rest2 with
          | c2 :: c3 :: c4 :: rest5 =>
            if c2.toLower = 'p' ∧ c3.toLower = 'e' ∧ c4.toLower = 'e' then
              match rest5 with
              | c5 :: _ => if c5.toLower = 's' then some 5 else some 4
              | [] => some 4
            else none
          | _ => none
        else none
    else if c0.toLower = 'p' then
      match rest with
      | c1 :: c2 :: _ => if c1.toLower = 'k' ∧ c2.toLower = 'r' then some 2 else none
      | _ => none
    else if c0 = '₨' then some 0
    else none

/-- Left-to-right non-overlapping deletion of currency tokens, fuel-indexed so
that the kernel can evaluate it (each step consumes at least one character, so
`fuel = l.length` never runs out). -/
def stripCurrencyAux : Nat → List Char → List Char
  | 0, _ => []
  | _ + 1, [] => []
  | fuel + 1, c :: rest =>
    match currencyExtraLen (c :: rest) with
    | some k => stripCurrencyAux fuel (rest.drop k)
    | none => c :: stripCurrencyAux fuel rest

/-- `re.sub(r'Rs\.?|PKR|₨|rupees?|Rupees?', '', s, flags=re.IGNORECASE)`. -/
def stripCurrency (l : List Char) : List Char :=
  stripCurrencyAux l.length l

/-- `re.sub(r'[^\d,.-]', '', s)`: keep only digits, commas, dots, minus. -/
def keepPriceChars (l : List Char) : List Char :=
  l.filter fun c => isDigitCh c ∨ c = ',' ∨ c = '.' ∨ c = '-'

/-- The cleaned price text `_parse_price` runs its regex patterns over
(server_robust.py lines 104-108). -/
def cleanedPrice (s : String) : List Char :=
  keepPriceChars (stripCurrency (pyStrip s.data))

/-- Pattern 4, `(\d+)`, anchored at the current position: a maximal nonempty
digit run. -/
def p4At (l : List Char) : Option (List Char) :=
  match l.takeWhile isDigitCh with
  | [] => none
  | run => some run

/-- Pattern 3, `(\d{4,})`, anchored at the current position: a maximal digit
run of length at least four. -/
def p3At (l : List Char) : Option (List Char) :=
  let run := l.takeWhile isDigitCh
  if 4 ≤ run.length then some run else none

/-- Pattern 2, `(\d+\.\d{2})`, anchored at the current position.  The digit
run before the dot is necessarily maximal (a digit can never match `\.`), so
no backtracking case remains. -/
def p2At (l : List Char) : Option (List Char) :=
  match l.takeWhile isDigitCh, l.dropWhile isDigitCh with
  | [], _ => none
  | run, '.' :: a :: b :: _ =>
    if isDigitCh a ∧ isDigitCh b then some (run ++ '.' :: a :: [b]) else none
  | _, _ => none

/-- Greedy parse of `(?:,\d{3})+` at the head: the matched characters and the
remainder.  An empty first component means zero groups matched. -/
def commaBlocks : List Char → List Char × List Char
  | ',' :: a :: b :: c :: rest =>
    if isDigitCh a ∧ isDigitCh b ∧ isDigitCh c then
      let (bs, r) := commaBlocks rest
      (',' :: a :: b :: c :: bs, r)
    else ([], ',' :: a :: b :: c :: rest)
  | l => ([], l)

/-- Greedy parse of the optional `(?:\.\d{2})?` at the head. -/
def optFrac : List Char → List Char
  | '.' :: a :: b :: _ => if isDigitCh a ∧ isDigitCh b then ['.', a, b] else []
  | _ => []

/-- Pattern 1 with `\d{1,3}` instantiated to exactly `k` digits. -/
def p1AtK (k : Nat) (l : List Char) : Option (List Char) :=
  let pre := l.take k
  if pre.length = k ∧ pre.all isDigitCh then
    match commaBlocks (l.drop k) with
    | ([], _) => none
    | (bs, rest) => some (pre ++ bs ++ optFrac rest)
  else none

/-- Pattern 1, `(\d{1,3}(?:,\d{3})+(?:\.\d{2})?)`, anchored at the current
position; the greedy `\d{1,3}` backtracks from three digits down to one. -/
def p1At (l : List Char) : Option (List Char) :=
  match p1AtK 3 l with
  | some g => some g
  | none =>
    match p1AtK 2 l with
    | some g => some g
    | none => p1AtK 1 l

/-- `re.search`: try the anchored matcher at each position, leftmost first. -/
def reSearch (m : List Char → Option (List Char)) : List Char → Option (List Char)
  | [] => m []
  | c :: rest =>
    match m (c :: rest) with
    | some g => some g
    | none => reSearch m rest

/-- The four patterns of `_parse_price`, searched in order; the first match
wins (server_robust.py lines 113-129). -/
def findPriceGroup (l : List Char) : Option (List Char) :=
  match reSearch p1At l with
  | some g => some g
  | none =>
    match reSearch p2At l with
    | some g => some g
    | none =>
      match reSearch p3At l with
      | some g => some g
      | none => reSearch p4At l

/-- Numeric value of a digit list. -/
def natOfDigits (l : List Char) : Nat :=
  l.foldl (fun a c => 10 * a + (c.toNat - 48)) 0

/-- Number of fractional digits of a matched group once commas are removed. -/
def groupScale (g : List Char) : Nat :=
  match (g.filter fun c => c ≠ ',').dropWhile isDigitCh with
  | '.' :: fr => (fr.takeWhile isDigitCh).length
  | _ => 0

/-- All significant digits of a matched group (commas and the dot removed). -/
def groupNum (g : List Char) : Nat :=
  let g' := g.filter fun c => c ≠ ','
  natOfDigits
    (g'.takeWhile isDigitCh ++
      match g'.dropWhile isDigitCh with
      | '.' :: fr => fr.takeWhile isDigitCh
      | _ => [])

/-- `float(group.replace(',', ''))` for a matched group: the groups the
patterns can produce are digits with optional comma separators and an optional
dot followed by two digits, so the conversion never fails (the `ValueError`
branch of the source is dead for these shapes); the decimal text `i.f` denotes
the exact value `(digits of i followed by f) / 10 ^ (length of f)`. -/
def groupToRat (g : List Char) : ℚ :=
  (groupNum g : ℚ) / (10 : ℚ) ^ groupScale g

/-- `DarazScraper._parse_price` (server_robust.py lines 94-132; the
server_merged.py copy at lines 43-66 is textually identical logic). -/
def _parse_price (s : String) : Option ℚ :=
  if s = "" then none
  else (findPriceGroup (cleanedPrice s)).map groupToRat

/-- Canonical product record, the dictionary built by the fetch methods
(server_robust.py lines 239-245 and 326-332). -/
structure ProductRecord where
  name : String
  price : Option ℚ
  in_stock : String
  url : String
  method : String
deriving DecidableEq

/-- Raw structured item, the JSON dictionary one element of `listItems`
denotes; `none` models an absent key and `some ""` an empty value (both are
falsy in the source's `or`-chains). -/
structure RawItem where
  name : Option String
  title : Option String
  productName : Option String
  itemTitle : Option String
  priceShow : Option String
  price : Option String
  originalPrice : Option String
  currentPrice : Option String
  sellingPrice : Option String
  itemUrl : Option String
  link : Option String
  productUrl : Option String
  url : Option String
  inStock : Option String
  stock : Option String
  availability : Option String
  stockStatus : Option String

/-- Python `a or b or ... or ""`: the first truthy (non-empty) value. -/
def orChain : List (Option String) → String
  | [] => ""
  | none :: rest => orChain rest
  | some s :: rest => if s = "" then orChain rest else s

/-- First field that is present and truthy, as an optional value (the
`for field in price_fields` loop of server_robust.py lines 207-213). -/
def firstTruthy : List (Option String) → Option String
  | [] => none
  | none :: rest => firstTruthy rest
  | some s :: rest => if s = "" then firstTruthy rest else some s

/-- Python `s.startswith(pre)`. -/
def pyStartsWith (s pre : String) : Bool :=
  pre.data.isPrefixOf s.data

/-- URL normalization of server_robust.py lines 227-230 and 316-319, and of
server_merged.py lines 145-148 (protocol-relative first, then root-relative,
anything else unchanged). -/
def normalize_url (u : String) : String :=
  if pyStartsWith u "//" then "https:" ++ u
  else if pyStartsWith u "/" then "https://www.daraz.pk" ++ u
  else u

/-- URL normalization of `_browser_search_async` in server_merged.py lines
233-235: only the single leading slash is checked. -/
def normalize_url_browser_merged (u : String) : String :=
  if pyStartsWith u "/" then "https://www.daraz.pk" ++ u else u

/-- Resolved name of a structured item (server_robust.py lines 201-204). -/
def resolve_name (it : RawItem) : String :=
  orChain [it.name, it.title, it.productName, it.itemTitle]

/-- Resolved, normalized url of a structured item (lines 222-230). -/
def resolve_url (it : RawItem) : String :=
  normalize_url (orChain [it.itemUrl, it.link, it.productUrl, it.url])

/-- Resolved price of a structured item (lines 207-219): first truthy price
field, passed through `_parse_price`; `None` when no field is truthy. -/
def resolve_price (it : RawItem) : Option ℚ :=
  (firstTruthy [it.priceShow, it.price, it.originalPrice, it.currentPrice,
    it.sellingPrice]).bind _parse_price

/-- Resolved stock text of a structured item (lines 233-236 and the `str()`
coercion at line 242). -/
def resolve_stock (it : RawItem) : String :=
  orChain [it.inStock, it.stock, it.availability, it.stockStatus]

/-- Per-item step of `search_json_method` (server_robust.py lines 197-249):
`none` exactly when the resolved name or url is empty, otherwise the record. -/
def build_json_item (it : RawItem) : Option ProductRecord :=
  let nm := resolve_name it
  let u := resolve_url it
  if nm ≠ "" ∧ u ≠ "" then
    some ⟨nm, resolve_price it, resolve_stock it, u, "json"⟩
  else none

/-- Record-building pass of `search_json_method` over the item list of one
structured response (failing items are skipped, siblings kept). -/
def search_json_results (items : List RawItem) : List ProductRecord :=
  items.filterMap build_json_item

/-- Raw fields extracted from one rendered product element, after the
per-element DOM selector fallbacks of `search_browser_method`
(server_robust.py lines 304-323) have produced their text results:
`name` is the title attribute or anchor text ("" when absent), `priceText`
the price element text, `href` the anchor href, and `stockText` the stock
element text (`none` when no stock element was found). -/
structure BrowserItem where
  name : String
  priceText : String
  href : String
  stockText : Option String

/-- Python string slice `s[:n]`. -/
def strTake (n : Nat) (s : String) : String :=
  ⟨s.data.take n⟩

/-- Record-building step for one rendered element (server_robust.py lines
311-332): url normalization, the 200-character name cap, the "Available"
stock default, and the name/url validity guard. -/
def build_browser_item (e : BrowserItem) : Option ProductRecord :=
  let u := normalize_url e.href
  if e.name ≠ "" ∧ u ≠ "" then
    some ⟨strTake 200 e.name, _parse_price e.priceText,
      e.stockText.getD "Available", u, "browser"⟩
  else none

/-- One row of the SQLite `search_cache` table (columns `results`,
`created_at`, `expires_at`; `query` and `page` are recoverable from the key
and carry no behavior). -/
structure CacheEntry where
  results : List ProductRecord
  created_at : ℚ
  expires_at : ℚ
deriving DecidableEq

/-- The `search_cache` table: rows keyed by the primary-key string. -/
abbrev CacheDB := List (String × CacheEntry)

/-- `get_cache_key` (server_robust.py lines 56-58): the md5 digest of
`f"{query}_{page}"`, modelled as the hashed text itself. -/
def get_cache_key (query : String) (page : Nat) : String :=
  query ++ "_" ++ toString page

/-- `SELECT ... WHERE cache_key = ?` on the primary key. -/
def dbLookup (db : CacheDB) (k : String) : Option CacheEntry :=
  (db.find? fun row => row.1 = k).map fun row => row.2

/-- `DELETE FROM search_cache WHERE cache_key = ?`. -/
def dbDelete (db : CacheDB) (k : String) : CacheDB :=
  db.filter fun row => row.1 ≠ k

/-- `INSERT OR REPLACE INTO search_cache ...`. -/
def dbInsertReplace (db : CacheDB) (k : String) (e : CacheEntry) : CacheDB :=
  (k, e) :: dbDelete db k

/-- `DarazScraper.get_cached_results` (server_robust.py lines 60-79): returns
the stored sequence only when `now` is strictly before `expires_at`,
otherwise deletes the expired row; second component is the table afterwards. -/
def get_cached_results (db : CacheDB) (now : ℚ) (query : String) (page : Nat) :
    Option (List ProductRecord) × CacheDB :=
  match dbLookup db (get_cache_key query page) with
  | some e =>
    if now < e.expires_at then (some e.results, db)
    else (none, dbDelete db (get_cache_key query page))
  | none => (none, db)

/-- `DarazScraper.cache_results` (server_robust.py lines 81-92): overwrite the
row with fresh `created_at = now` and `expires_at = now + ttl`. -/
def cache_results (db : CacheDB) (now ttl : ℚ) (query : String) (page : Nat)
    (results : List ProductRecord) : CacheDB :=
  dbInsertReplace db (get_cache_key query page) ⟨results, now, now + ttl⟩

/-- Result of the robust coordinator, instrumented: the returned records, the
cache table afterwards, and which fetchers were invoked. -/
structure FallbackResult where
  results : List ProductRecord
  db : CacheDB
  jsonCalled : Bool
  browserCalled : Bool
deriving DecidableEq

/-- `DarazScraper.search_with_fallback` of server_robust.py lines 345-364:
cache first (a cached value is used only when truthy, i.e. non-empty), then
the JSON fetcher, then the browser fetcher when the JSON result is falsy;
a truthy final result is written back through `cache_results`.  The two
fetchers are passed as functions; the `jsonCalled`/`browserCalled` fields
record which of them the call actually invoked. -/
def search_with_fallback (jsonF browserF : String → Nat → List ProductRecord)
    (db : CacheDB) (now ttl : ℚ) (query : String) (page : Nat) : FallbackResult :=
  let gc := get_cached_results db now query page
  match gc.1 with
  | some (r :: rs) => ⟨r :: rs, gc.2, false, false⟩
  | _ =>
    let jsonRes := jsonF query page
    let results := if jsonRes = [] then browserF query page else jsonRes
    if results = [] then ⟨results, gc.2, true, decide (jsonRes = [])⟩
    else ⟨results, cache_results gc.2 now ttl query page results, true,
      decide (jsonRes = [])⟩

/-- `DarazScraper.search_with_fallback` of server_merged.py lines 169-179 (no
cache layer): the JSON fetcher (which also receives the category), then the
browser fetcher only when the JSON result is falsy.  Second component records
whether the browser fetcher was invoked. -/
def search_with_fallback_merged
    (jsonF : String → Nat → Option String → List ProductRecord)
    (browserF : String → Nat → List ProductRecord)
    (query : String) (page : Nat) (category : Option String) :
    List ProductRecord × Bool :=
  let results := jsonF query page category
  if results = [] then (browserF query page, true) else (results, false)

/-- The price filter of `search_daraz` (server_robust.py lines 401-403): a
record is skipped iff `max_price` is set, the price is truthy (present and
non-zero), and it exceeds `max_price`. -/
def priceSkipped (max_price : Option ℚ) (price : Option ℚ) : Bool :=
  match max_price, price with
  | some m, some p => decide (p ≠ 0) ∧ decide (m < p)
  | _, _ => false

/-- Inner `for result in page_results` loop of `search_daraz` (server_robust.py
lines 397-405): stop once `max_results` is reached, skip filtered records,
append the rest in order. -/
def addPage (max_price : Option ℚ) (max_results : Nat) :
    List ProductRecord → List ProductRecord → List ProductRecord
  | acc, [] => acc
  | acc, r :: rest =>
    if max_results ≤ acc.length then acc
    else if priceSkipped max_price r.price then addPage max_price max_results acc rest
    else addPage max_price max_results (acc ++ [r]) rest

/-- Outer `while` loop of `search_daraz` (server_robust.py lines 386-413),
with the page fetch abstracted as `fetch` and the politeness sleep dropped
(it has no data effect).  `remaining = page_limit + 1 - page` counts the loop
iterations still allowed, so `remaining > 0` is exactly `page ≤ page_limit`.
Besides the accumulated records the model returns the list of pages fetched,
in fetch order. -/
def searchPages (fetch : Nat → List ProductRecord) (max_price : Option ℚ)
    (max_results : Nat) : Nat → List ProductRecord → Nat →
    List ProductRecord × List Nat
  | _, acc, 0 => (acc, [])
  | page, acc, remaining + 1 =>
    if acc.length < max_results then
      let pr := fetch page
      if pr = [] then (acc, [page])
      else
        let acc' := addPage max_price max_results acc pr
        let res := searchPages fetch max_price max_results (page + 1) acc' remaining
        (res.1, page :: res.2)
    else (acc, [])

/-- The `search_daraz` tool of server_robust.py lines 370-416 (aggregation
loop), instrumented with the list of fetched pages. -/
def search_daraz (fetch : Nat → List ProductRecord) (max_price : Option ℚ)
    (max_results page_limit : Nat) : List ProductRecord × List Nat :=
  searchPages fetch max_price max_results 1 [] page_limit

/-- A record with a given name and price, for concrete scenarios. -/
def mkRec (nm : String) (p : ℚ) : ProductRecord :=
  ⟨nm, some p, "stk", "https://www.daraz.pk/x", "json"⟩

/-- Two-page fake catalog of the end-to-end scenario: page 1 has prices
100, 200, 300, 400, 500 and page 2 has 50, 600, 150. -/
def demoFetch : Nat → List ProductRecord
  | 1 => [mkRec "a" 100, mkRec "b" 200, mkRec "c" 300, mkRec "d" 400, mkRec "e" 500]
  | 2 => [mkRec "f" 50, mkRec "g" 600, mkRec "h" 150]
  | _ => []

/-- A record whose parsed price is exactly zero (e.g. built from the price
text `"0"`). -/
def zeroRec : ProductRecord :=
  ⟨"free item", some 0, "stk", "https://www.daraz.pk/z", "json"⟩

/-- One-page catalog containing only the zero-priced record. -/
def zeroFetch : Nat → List ProductRecord
  | 1 => [zeroRec]
  | _ => []

/-- Reachable-cache invariant: the code writes a row only for a truthy
(non-empty) result list (server_robust.py lines 360-362), so every row of a
cache the system built stores a non-empty sequence. -/
def cacheInv (db : CacheDB) : Prop :=
  ∀ row ∈ db, row.2.results ≠ []

/-- A concrete structured item for witnesses. -/
def demoItem : RawItem :=
  ⟨none, some "Mouse", none, none, some "Rs. 2500", none, none, none, none,
    some "//www.daraz.pk/products/mouse-i1.html", none, none, none,
    some "true", none, none, none⟩

/-- A concrete structured item lacking every url field. -/
def noUrlItem : RawItem :=
  ⟨some "NoUrl", none, none, none, none, none, none, none, none,
    none, none, none, none, none, none, none, none⟩

/-- A cache row that expires at time 1. -/
def demoEntry : CacheEntry := ⟨[zeroRec], 0, 1⟩

/-- A one-row cache table holding `demoEntry` under the key for ("q", 1). -/
def demoDb : CacheDB := [(get_cache_key "q" 1, demoEntry)]

/-- A structured fetcher (merged signature) that always finds one record. -/
def demoJsonF : String → Nat → Option String → List ProductRecord :=
  fun _ _ _ => [mkRec "j" 10]

/-- A structured fetcher (merged signature) that always fails. -/
def emptyJsonF : String → Nat → Option String → List ProductRecord :=
  fun _ _ _ => []

/-- A rendered fetcher that always finds one record. -/
def demoBrowserF : String → Nat → List ProductRecord :=
  fun _ _ => [mkRec "b" 20]

/-- A robust-signature structured fetcher that always finds one record. -/
def demoJf : String → Nat → List ProductRecord :=
  fun _ _ => [mkRec "j" 10]

/-- A robust-signature rendered fetcher that always finds one record. -/
def demoBf : String → Nat → List ProductRecord :=
  fun _ _ => [mkRec "b" 20]

/-- A fetcher that always fails. -/
def emptyF : String → Nat → List ProductRecord :=
  fun _ _ => []

/-- A record whose price field is absent (unparseable price text). -/
def noPriceRec : ProductRecord :=
  ⟨"no price", none, "stk", "https://www.daraz.pk/np", "json"⟩

/-- Lookup distributes over a cons row. -/
theorem dbLookup_cons (a : String × CacheEntry) (t : CacheDB) (k : String) :
    dbLookup (a :: t) k = if a.1 = k then some a.2 else dbLookup t k := by
  by_cases h : a.1 = k <;>
    simp [dbLookup, List.find?_cons_of_pos, List.find?_cons_of_neg, h]

/-- Deleting a key really removes it. -/
theorem dbLookup_dbDelete_self (db : CacheDB) (k : String) :
    dbLookup (dbDelete db k) k = none := by
  induction db with
  | nil => rfl
  | cons a t ih =>
    by_cases h : a.1 = k
    · simpa [dbDelete, List.filter_cons, h] using ih
    · simpa [dbDelete, List.filter_cons, h, dbLookup_cons] using ih

/-- `INSERT OR REPLACE` makes the inserted row the one found. -/
theorem dbLookup_dbInsertReplace_self (db : CacheDB) (k : String) (e : CacheEntry) :
    dbLookup (dbInsertReplace db k e) k = some e := by
  simp [dbInsertReplace, dbLookup_cons]

/-- A row found in an invariant-satisfying cache stores a non-empty list. -/
theorem cacheInv_lookup {db : CacheDB} (h : cacheInv db) {k : String} {e : CacheEntry}
    (hl : dbLookup db k = some e) : e.results ≠ [] := by
  unfold dbLookup at hl
  cases hf : db.find? fun row => row.1 = k with
  | none => simp [hf] at hl
  | some row =>
    have hm := List.mem_of_find?_eq_some hf
    simp [hf] at hl
    exact hl ▸ h row hm

/-- Deletion preserves the cache invariant. -/
theorem cacheInv_dbDelete {db : CacheDB} (h : cacheInv db) (k : String) :
    cacheInv (dbDelete db k) := by
  intro row hr
  exact h row (List.mem_of_mem_filter hr)

/-- Writing a non-empty result preserves the cache invariant. -/
theorem cacheInv_cache_results {db : CacheDB} (h : cacheInv db) (now ttl : ℚ)
    (q : String) (p : Nat) {rs : List ProductRecord} (hrs : rs ≠ []) :
    cacheInv (cache_results db now ttl q p rs) := by
  intro row hr
  simp only [cache_results, dbInsertReplace, List.mem_cons] at hr
  rcases hr with h1 | h1
  · subst h1; simpa using hrs
  · exact cacheInv_dbDelete h _ row h1

/-- A cache read (with its lazy eviction) preserves the invariant. -/
theorem get_cached_snd (db : CacheDB) (now : ℚ) (q : String) (p : Nat) :
    cacheInv db → cacheInv (get_cached_results db now q p).2 := by
  intro h
  unfold get_cached_results
  cases dbLookup db (get_cache_key q p) with
  | none => exact h
  | some e =>
    by_cases hc : now < e.expires_at
    · simpa [hc] using h
    · simpa [hc] using cacheInv_dbDelete h _

/-- On an invariant-satisfying cache a read yields nothing or a non-empty
list; `some []` is impossible. -/
theorem gc_fst_shape {db : CacheDB} {now : ℚ} {q : String} {p : Nat}
    (h : cacheInv db) :
    (get_cached_results db now q p).1 = none ∨
      ∃ a l, (get_cached_results db now q p).1 = some (a :: l) := by
  unfold get_cached_results
  cases hl : dbLookup db (get_cache_key q p) with
  | none => simp
  | some e =>
    by_cases hc : now < e.expires_at
    · right
      have := cacheInv_lookup h hl
      cases hres : e.results with
      | nil => exact absurd hres this
      | cons a l => exact ⟨a, l, by simp [hc, hres]⟩
    · simp [hc]

/-- After a missed read the key is absent from the resulting table. -/
theorem gc_none_lookup {db : CacheDB} {now : ℚ} {q : String} {p : Nat}
    (h : (get_cached_results db now q p).1 = none) :
    dbLookup (get_cached_results db now q p).2 (get_cache_key q p) = none := by
  unfold get_cached_results at h ⊢
  cases hl : dbLookup db (get_cache_key q p) with
  | none => simp [hl]
  | some e =>
    by_cases hc : now < e.expires_at
    · simp [hl, hc] at h
    · simp [hl, hc, dbLookup_dbDelete_self]

/-- A read on a table missing the key yields nothing. -/
theorem get_fst_of_lookup_none {db : CacheDB} {now : ℚ} {q : String} {p : Nat}
    (h : dbLookup db (get_cache_key q p) = none) :
    (get_cached_results db now q p).1 = none := by
  unfold get_cached_results
  rw [h]

/-- Unfolding of the robust coordinator on a truthy cache hit. -/
theorem swf_cache_hit {jf bf : String → Nat → List ProductRecord} {db : CacheDB}
    {now ttl : ℚ} {q : String} {p : Nat} {a : ProductRecord} {l : List ProductRecord}
    (h : (get_cached_results db now q p).1 = some (a :: l)) :
    search_with_fallback jf bf db now ttl q p =
      ⟨a :: l, (get_cached_results db now q p).2, false, false⟩ := by
  simp only [search_with_fallback]
  rw [h]

/-- Unfolding of the robust coordinator on a cache miss. -/
theorem swf_cache_miss {jf bf : String → Nat → List ProductRecord} {db : CacheDB}
    {now ttl : ℚ} {q : String} {p : Nat}
    (h : (get_cached_results db now q p).1 = none) :
    search_with_fallback jf bf db now ttl q p =
      (if (if jf q p = [] then bf q p else jf q p) = [] then
        ⟨if jf q p = [] then bf q p else jf q p,
          (get_cached_results db now q p).2, true, decide (jf q p = [])⟩
      else
        ⟨if jf q p = [] then bf q p else jf q p,
          cache_results (get_cached_results db now q p).2 now ttl q p
            (if jf q p = [] then bf q p else jf q p), true,
          decide (jf q p = [])⟩) := by
  simp only [search_with_fallback]
  rw [h]

/-- On a cache miss the structured fetcher is always invoked. -/
theorem swf_jsonCalled_of_none {jf bf : String → Nat → List ProductRecord}
    {db : CacheDB} {now ttl : ℚ} {q : String} {p : Nat}
    (h : (get_cached_results db now q p).1 = none) :
    (search_with_fallback jf bf db now ttl q p).jsonCalled = true := by
  rw [swf_cache_miss h]
  by_cases hb : (if jf q p = [] then bf q p else jf q p) = []
  · rw [if_pos hb]
  · rw [if_neg hb]

/-- The inner appending loop never grows the accumulator past the target. -/
theorem addPage_length_le (max_price : Option ℚ) (T : Nat) :
    ∀ (l acc : List ProductRecord), acc.length ≤ T →
      (addPage max_price T acc l).length ≤ T := by
  intro l
  induction l with
  | nil => intro acc h; simpa [addPage] using h
  | cons r rest ih =>
    intro acc h
    by_cases hfull : T ≤ acc.length
    · simpa [addPage, hfull] using h
    · by_cases hskip : priceSkipped max_price r.price
      · simpa [addPage, hfull, hskip] using ih acc h
      · have : (acc ++ [r]).length ≤ T := by
          simp only [List.length_append, List.length_cons, List.length_nil]
          omega
        simpa [addPage, hfull, hskip] using ih (acc ++ [r]) this

/-- Everything the inner loop emits was already accumulated or passed the
price filter. -/
theorem addPage_mem (max_price : Option ℚ) (T : Nat) :
    ∀ (l acc : List ProductRecord) (r : ProductRecord),
      r ∈ addPage max_price T acc l →
      r ∈ acc ∨ priceSkipped max_price r.price = false := by
  intro l
  induction l with
  | nil => intro acc r h; exact Or.inl (by simpa [addPage] using h)
  | cons x rest ih =>
    intro acc r h
    by_cases hfull : T ≤ acc.length
    · exact Or.inl (by simpa [addPage, hfull] using h)
    · by_cases hskip : priceSkipped max_price x.price
      · exact ih acc r (by simpa [addPage, hfull, hskip] using h)
      · rcases ih (acc ++ [x]) r (by simpa [addPage, hfull, hskip] using h) with hm | hm
        · rcases List.mem_append.mp hm with hm | hm
          · exact Or.inl hm
          · right
            have : r = x := by simpa using hm
            subst this
            simpa using hskip
        · exact Or.inr hm

/-- Count and stop behavior of the page loop: the accumulator stays within
the target, at most `remaining` pages are fetched, and every fetched page
except possibly the last was non-empty. -/
theorem searchPages_spec (fetch : Nat → List ProductRecord) (mp : Option ℚ) (T : Nat) :
    ∀ (rem page : Nat) (acc : List ProductRecord), acc.length ≤ T →
      (searchPages fetch mp T page acc rem).1.length ≤ T ∧
      (searchPages fetch mp T page acc rem).2.length ≤ rem ∧
      ∀ p ∈ (searchPages fetch mp T page acc rem).2.dropLast, fetch p ≠ [] := by
  intro rem
  induction rem with
  | zero => intro page acc h; simpa [searchPages] using h
  | succ n ih =>
    intro page acc h
    by_cases hlt : acc.length < T
    · by_cases hemp : fetch page = []
      · refine ⟨by simpa [searchPages, hlt, hemp] using h, ?_, ?_⟩
        · simp [searchPages, hlt, hemp]
        · simp [searchPages, hlt, hemp]
      · have hacc : (addPage mp T acc (fetch page)).length ≤ T :=
          addPage_length_le mp T (fetch page) acc h
        obtain ⟨ih1, ih2, ih3⟩ := ih (page + 1) (addPage mp T acc (fetch page)) hacc
        have heq : searchPages fetch mp T page acc (n + 1) =
            ((searchPages fetch mp T (page + 1) (addPage mp T acc (fetch page)) n).1,
              page :: (searchPages fetch mp T (page + 1)
                (addPage mp T acc (fetch page)) n).2) := by
          simp [searchPages, hlt, hemp]
        rw [heq]
        refine ⟨ih1, by simpa using ih2, ?_⟩
        intro x hx
        rcases hp : (searchPages fetch mp T (page + 1)
            (addPage mp T acc (fetch page)) n).2 with _ | ⟨y, ys⟩
        · simp [hp] at hx
        · rw [hp] at hx
          rw [List.dropLast_cons_of_ne_nil (by simp)] at hx
          rcases List.mem_cons.mp hx with rfl | hx
          · exact hemp
          · exact ih3 x (by rw [hp]; exact hx)
    · refine ⟨by simpa [searchPages, hlt] using h, by simp [searchPages, hlt], ?_⟩
      simp [searchPages, hlt]

/-- Everything the page loop returns was accumulated before the loop or
passed the price filter. -/
theorem searchPages_mem (fetch : Nat → List ProductRecord) (mp : Option ℚ) (T : Nat) :
    ∀ (rem page : Nat) (acc : List ProductRecord) (r : ProductRecord),
      r ∈ (searchPages fetch mp T page acc rem).1 →
      r ∈ acc ∨ priceSkipped mp r.price = false := by
  intro rem
  induction rem with
  | zero => intro page acc r h; exact Or.inl (by simpa [searchPages] using h)
  | succ n ih =>
    intro page acc r h
    by_cases hlt : acc.length < T
    · by_cases hemp : fetch page = []
      · exact Or.inl (by simpa [searchPages, hlt, hemp] using h)
      · have h' : r ∈ (searchPages fetch mp T (page + 1)
            (addPage mp T acc (fetch page)) n).1 := by
          simpa [searchPages, hlt, hemp] using h
        rcases ih (page + 1) (addPage mp T acc (fetch page)) r h' with hm | hm
        · rcases addPage_mem mp T (fetch page) acc r hm with hm2 | hm2
          · exact Or.inl hm2
          · exact Or.inr hm2
        · exact Or.inr hm
    · exact Or.inl (by simpa [searchPages, hlt] using h)

/-- A Python slice `s[:n]` of a non-empty string is non-empty when `n ≠ 0`. -/
theorem strTake_ne_empty {s : String} (hs : s ≠ "") {n : Nat} (hn : n ≠ 0) :
    strTake n s ≠ "" := by
  intro habs
  have hdata : s.data.take n = [] := congrArg String.data habs
  rcases List.take_eq_nil_iff.mp hdata with h | h
  · exact hn h
  · exact hs (String.ext h)

/-- On digit-free text the maximal digit run is empty. -/
theorem takeWhile_nil_noDigit {l : List Char} (h : ∀ c ∈ l, isDigitCh c = false) :
    l.takeWhile isDigitCh = [] := by
  cases l with
  | nil => rfl
  | cons c cs =>
    exact List.takeWhile_cons_of_neg (by simp [h c (List.mem_cons_self c cs)])

/-- Pattern `(\d+)` fails on digit-free text. -/
theorem p4At_noDigit {l : List Char} (h : ∀ c ∈ l, isDigitCh c = false) :
    p4At l = none := by
  unfold p4At
  rw [takeWhile_nil_noDigit h]

/-- Pattern `(\d{4,})` fails on digit-free text. -/
theorem p3At_noDigit {l : List Char} (h : ∀ c ∈ l, isDigitCh c = false) :
    p3At l = none := by
  unfold p3At
  rw [takeWhile_nil_noDigit h]
  simp

/-- Pattern `(\d+\.\d{2})` fails on digit-free text. -/
theorem p2At_noDigit {l : List Char} (h : ∀ c ∈ l, isDigitCh c = false) :
    p2At l = none := by
  unfold p2At
  rw [takeWhile_nil_noDigit h]
  split <;> first
  | rfl
  | exact absurd rfl (by assumption)

/-- The fixed-width head of pattern 1 fails on digit-free text. -/
theorem p1AtK_noDigit {l : List Char} (h : ∀ c ∈ l, isDigitCh c = false)
    {k : Nat} (hk : k ≠ 0) : p1AtK k l = none := by
  unfold p1AtK
  rw [if_neg]
  rintro ⟨hlen, hall⟩
  rcases hl : l.take k with _ | ⟨c, cs⟩
  · rw [hl] at hlen
    exact hk hlen.symm
  · have hmem : c ∈ l.take k := hl ▸ List.mem_cons_self c cs
    have hc : c ∈ l := List.take_subset k l hmem
    have hdig : isDigitCh c = true := by
      have := List.all_eq_true.mp hall c hmem
      simpa using this
    rw [h c hc] at hdig
    cases hdig

/-- Pattern `(\d{1,3}(?:,\d{3})+(?:\.\d{2})?)` fails on digit-free text. -/
theorem p1At_noDigit {l : List Char} (h : ∀ c ∈ l, isDigitCh c = false) :
    p1At l = none := by
  unfold p1At
  rw [p1AtK_noDigit h (by norm_num), p1AtK_noDigit h (by norm_num),
    p1AtK_noDigit h (by norm_num)]

/-- A scan with a matcher that fails on digit-free text fails on digit-free
text (every suffix of digit-free text is digit-free). -/
theorem reSearch_noDigit {m : List Char → Option (List Char)}
    (hm : ∀ l, (∀ c ∈ l, isDigitCh c = false) → m l = none) :
    ∀ l, (∀ c ∈ l, isDigitCh c = false) → reSearch m l = none := by
  intro l
  induction l with
  | nil => intro h; exact hm [] h
  | cons c rest ih =>
    intro h
    unfold reSearch
    rw [hm _ h]
    exact ih fun x hx => h x (List.mem_cons_of_mem c hx)

/-- Every matched group denotes a non-negative value: the patterns capture
digits, commas and a dot but never a sign. -/
theorem groupToRat_nonneg (g : List Char) : 0 ≤ groupToRat g := by
  unfold groupToRat
  positivity

/-- A protocol-relative url also starts with a single slash. -/
theorem pyStartsWith_slash_of_dslash {u : String} (h : pyStartsWith u "//" = true) :
    pyStartsWith u "/" = true := by
  unfold pyStartsWith at h ⊢
  cases hd : u.data with
  | nil => rw [hd] at h; cases h
  | cons c cs =>
    rw [hd] at h
    rcases cs with _ | ⟨c2, cs2⟩
    · simp [List.isPrefixOf] at h
    · simp [List.isPrefixOf] at h ⊢
      exact h.1

/-- Claim C1: with the two-page fake catalog (page 1 priced 100, 200, 300,
400, 500; page 2 priced 50, 600, 150), a search with maxResults = 6,
maxPrice = 300 and pageLimit = 2 returns exactly the records priced
[100, 200, 300, 50, 150], in that order (and fetches pages 1 and 2). -/
theorem claim_C1 :
    search_daraz demoFetch (some 300) 6 2 =
      ([mkRec "a" 100, mkRec "b" 200, mkRec "c" 300, mkRec "f" 50, mkRec "h" 150],
        [1, 2]) := by
  decide

/-- Claim C2: for every search request with target count T and page limit L,
the search returns at most T records, issues at most L page fetches, and
terminates; every fetched page other than possibly the last one was
non-empty, i.e. the loop stops at the first empty page. -/
theorem claim_C2 (fetch : Nat → List ProductRecord) (mp : Option ℚ) (T L : Nat) :
    (search_daraz fetch mp T L).1.length ≤ T ∧
    (search_daraz fetch mp T L).2.length ≤ L ∧
    ∀ p ∈ (search_daraz fetch mp T L).2.dropLast, fetch p ≠ [] := by
  exact searchPages_spec fetch mp T L 1 [] (by simp)

/-- Claim C2 witness: concrete instance of the bound and of the non-empty
prefix condition for the two-page demo catalog. -/
theorem claim_C2_witness :
    (search_daraz demoFetch none 100 5).1.length ≤ 100 ∧ demoFetch 1 ≠ [] :=
  ⟨(claim_C2 demoFetch none 100 5).1, (claim_C2 demoFetch none 100 5).2.2 1 (by decide)⟩

/-- Claim C3 counterexample: the claim "every returned record has price
absent or ≤ P" fails as stated.  With maxPrice = -1 the zero-priced record
is returned (its price is falsy, so the filter at server_robust.py line 401
never fires), yet 0 ≤ -1 does not hold. -/
theorem claim_C3_counterexample :
    (search_daraz zeroFetch (some (-1)) 1 1).1 = [zeroRec] ∧
    zeroRec.price = some 0 ∧ ¬ ((0 : ℚ) ≤ -1) := by
  refine ⟨by decide, rfl, by norm_num⟩

/-- Claim C3 (amended): with maxPrice = P every returned record has a price
that is absent, exactly zero (a zero price is falsy, bypassing the filter),
or at most P; and absent- and zero-priced records are retained, not filtered
out — the skip predicate of server_robust.py lines 401-403 never fires on
them, so the inner loop appends such a record whenever the target count has
not yet been reached. -/
theorem claim_C3 (fetch : Nat → List ProductRecord) (P : ℚ) (T L : Nat) :
    (∀ r ∈ (search_daraz fetch (some P) T L).1,
      r.price = none ∨ r.price = some 0 ∨ ∃ pr, r.price = some pr ∧ pr ≤ P) ∧
    (∀ pr : Option ℚ, pr = none ∨ pr = some 0 →
      priceSkipped (some P) pr = false) ∧
    (∀ (acc rest : List ProductRecord) (r : ProductRecord),
      acc.length < T → (r.price = none ∨ r.price = some 0) →
      addPage (some P) T acc (r :: rest) = addPage (some P) T (acc ++ [r]) rest) := by
  refine ⟨fun r hr => ?_, fun pr hpr => ?_, fun acc rest r hlen hpr => ?_⟩
  · rcases searchPages_mem fetch (some P) T L 1 [] r hr with hm | hm
    · simp at hm
    · cases hp : r.price with
      | none => exact Or.inl rfl
      | some pr =>
        by_cases hz : pr = 0
        · exact Or.inr (Or.inl (by rw [hz]))
        · refine Or.inr (Or.inr ⟨pr, rfl, ?_⟩)
          rw [hp] at hm
          simp [priceSkipped, hz] at hm
          exact hm
  · rcases hpr with h | h <;> simp [priceSkipped, h]
  · have hskip : priceSkipped (some P) r.price = false := by
      rcases hpr with h | h <;> simp [priceSkipped, h]
    simp [addPage, Nat.not_le.mpr hlen, hskip]

/-- Claim C3 witness: the amended bound at a concrete returned record of the
demo scenario, and retention of a concrete absent-priced record — the filter
does not fire on it and the loop appends it. -/
theorem claim_C3_witness :
    ((mkRec "a" 100).price = none ∨ (mkRec "a" 100).price = some 0 ∨
      ∃ pr, (mkRec "a" 100).price = some pr ∧ pr ≤ 300) ∧
    priceSkipped (some 300) noPriceRec.price = false ∧
    addPage (some 300) 6 [] [noPriceRec] = [noPriceRec] :=
  ⟨(claim_C3 demoFetch 300 6 2).1 (mkRec "a" 100) (by decide),
    (claim_C3 demoFetch 300 6 2).2.1 noPriceRec.price (Or.inl rfl),
    (claim_C3 demoFetch 300 6 2).2.2 [] [] noPriceRec (by norm_num) (Or.inl rfl)⟩

/-- Claim C4: the coordinator first calls the structured fetcher; when that
yields at least one record the result is returned and the rendered fetcher
is not invoked; only on an empty structured result is the rendered fetcher
called and its result returned.  Stated for the merged coordinator
(server_merged.py lines 169-179) and for the robust coordinator on a cache
miss (server_robust.py lines 345-364). -/
theorem claim_C4
    (jsonF : String → Nat → Option String → List ProductRecord)
    (browserF jf bf : String → Nat → List ProductRecord)
    (db : CacheDB) (now ttl : ℚ) (q : String) (p : Nat) (cat : Option String) :
    (jsonF q p cat ≠ [] →
      search_with_fallback_merged jsonF browserF q p cat = (jsonF q p cat, false)) ∧
    (jsonF q p cat = [] →
      search_with_fallback_merged jsonF browserF q p cat = (browserF q p, true)) ∧
    (dbLookup db (get_cache_key q p) = none →
      (search_with_fallback jf bf db now ttl q p).jsonCalled = true ∧
      (jf q p ≠ [] →
        (search_with_fallback jf bf db now ttl q p).results = jf q p ∧
        (search_with_fallback jf bf db now ttl q p).browserCalled = false) ∧
      (jf q p = [] →
        (search_with_fallback jf bf db now ttl q p).results = bf q p ∧
        (search_with_fallback jf bf db now ttl q p).browserCalled = true)) := by
  refine ⟨fun hm => ?_, fun hm => ?_, fun hmiss => ?_⟩
  · simp [search_with_fallback_merged, hm]
  · simp [search_with_fallback_merged, hm]
  · have hn := @get_fst_of_lookup_none db now q p hmiss
    refine ⟨swf_jsonCalled_of_none hn, fun hj => ?_, fun hj => ?_⟩
    · rw [swf_cache_miss hn]
      simp [hj]
    · rw [swf_cache_miss hn]
      by_cases hb : bf q p = [] <;> simp [hj, hb]

/-- Claim C4 witness: precedence at concrete fetchers — a productive
structured fetcher suppresses the rendered one, a failing structured fetcher
hands over to it, and on an empty cache the structured fetcher is invoked. -/
theorem claim_C4_witness :
    search_with_fallback_merged demoJsonF demoBrowserF "q" 1 none =
      (demoJsonF "q" 1 none, false) ∧
    search_with_fallback_merged emptyJsonF demoBrowserF "q" 1 none =
      (demoBrowserF "q" 1, true) ∧
    (search_with_fallback demoJf demoBf [] 0 3 "q" 1).jsonCalled = true :=
  ⟨(claim_C4 demoJsonF demoBrowserF demoJf demoBf [] 0 3 "q" 1 none).1 (by decide),
    (claim_C4 emptyJsonF demoBrowserF demoJf demoBf [] 0 3 "q" 1 none).2.1 rfl,
    ((claim_C4 demoJsonF demoBrowserF demoJf demoBf [] 0 3 "q" 1 none).2.2 rfl).1⟩

/-- Claim C5: a put followed immediately by a get for the same key returns
the stored sequence (for a positive TTL); a get at a time not strictly
before the entry's expiry returns nothing, deletes the row, and the row is
unreachable by any later get; a put for an existing key overwrites it with
fresh createdAt and expiresAt. -/
theorem claim_C5 (db : CacheDB) (now ttl t : ℚ) (q : String) (p : Nat)
    (rs : List ProductRecord) :
    (0 < ttl → (get_cached_results (cache_results db now ttl q p rs) now q p).1 = some rs) ∧
    (∀ e, dbLookup db (get_cache_key q p) = some e → e.expires_at ≤ t →
      get_cached_results db t q p = (none, dbDelete db (get_cache_key q p)) ∧
      ∀ t', (get_cached_results (dbDelete db (get_cache_key q p)) t' q p).1 = none) ∧
    dbLookup (cache_results db now ttl q p rs) (get_cache_key q p) =
      some ⟨rs, now, now + ttl⟩ := by
  refine ⟨fun httl => ?_, fun e he hexp => ⟨?_, fun t' => ?_⟩, ?_⟩
  · simp [get_cached_results, cache_results, dbLookup_dbInsertReplace_self, httl]
  · simp [get_cached_results, he, not_lt.mpr hexp]
  · simp [get_cached_results, dbLookup_dbDelete_self]
  · simp [cache_results, dbLookup_dbInsertReplace_self]

/-- Claim C5 witness: put-then-get on an empty table, expiry eviction and
unreachability on a one-row table whose entry expires at 1, read at time 2
and again at time 5, and the overwrite shape. -/
theorem claim_C5_witness :
    (get_cached_results (cache_results [] 0 3 "q" 1 [zeroRec]) 0 "q" 1).1 =
      some [zeroRec] ∧
    get_cached_results demoDb 2 "q" 1 = (none, dbDelete demoDb (get_cache_key "q" 1)) ∧
    (get_cached_results (dbDelete demoDb (get_cache_key "q" 1)) 5 "q" 1).1 = none ∧
    dbLookup (cache_results [] 0 3 "q" 1 [zeroRec]) (get_cache_key "q" 1) =
      some ⟨[zeroRec], 0, 0 + 3⟩ :=
  ⟨(claim_C5 [] 0 3 0 "q" 1 [zeroRec]).1 (by norm_num),
    ((claim_C5 demoDb 0 3 2 "q" 1 [zeroRec]).2.1 demoEntry
      (by simp [demoDb, dbLookup_cons]) (by norm_num [demoEntry])).1,
    ((claim_C5 demoDb 0 3 2 "q" 1 [zeroRec]).2.1 demoEntry
      (by simp [demoDb, dbLookup_cons]) (by norm_num [demoEntry])).2 5,
    (claim_C5 [] 0 3 0 "q" 1 [zeroRec]).2.2⟩

/-- Claim C6: on a reachable cache (one whose rows all store non-empty
sequences, the invariant the guarded put maintains) the fetchers are
consulted exactly when the cache get yields no value; a non-empty fetch
result is written back via the put; an empty fetch result leaves the key
uncached, so a later request for the same key invokes the fetchers again;
and the invariant is preserved. -/
theorem claim_C6 (jf bf jf2 bf2 : String → Nat → List ProductRecord)
    (db : CacheDB) (now ttl now2 ttl2 : ℚ) (q : String) (p : Nat) (h : cacheInv db) :
    ((search_with_fallback jf bf db now ttl q p).jsonCalled = true ↔
      (get_cached_results db now q p).1 = none) ∧
    ((search_with_fallback jf bf db now ttl q p).jsonCalled = true →
      (search_with_fallback jf bf db now ttl q p).results ≠ [] →
      (search_with_fallback jf bf db now ttl q p).db =
        cache_results (get_cached_results db now q p).2 now ttl q p
          (search_with_fallback jf bf db now ttl q p).results) ∧
    ((search_with_fallback jf bf db now ttl q p).results = [] →
      dbLookup (search_with_fallback jf bf db now ttl q p).db (get_cache_key q p) =
        none ∧
      (search_with_fallback jf2 bf2 (search_with_fallback jf bf db now ttl q p).db
          now2 ttl2 q p).jsonCalled = true) ∧
    cacheInv (search_with_fallback jf bf db now ttl q p).db := by
  rcases @gc_fst_shape db now q p h with hn | ⟨a, l, hs⟩
  · rw [swf_cache_miss hn]
    by_cases hres : (if jf q p = [] then bf q p else jf q p) = []
    · rw [if_pos hres]
      refine ⟨by simp [hn], by simp [hres], fun _ => ⟨?_, ?_⟩, ?_⟩
      · exact gc_none_lookup hn
      · exact swf_jsonCalled_of_none (get_fst_of_lookup_none (gc_none_lookup hn))
      · exact get_cached_snd db now q p h
    · rw [if_neg hres]
      refine ⟨by simp [hn], fun _ _ => rfl, fun habs => absurd habs hres, ?_⟩
      exact cacheInv_cache_results (get_cached_snd db now q p h) now ttl q p hres
  · rw [swf_cache_hit hs]
    refine ⟨by simp [hs], by simp, by simp, get_cached_snd db now q p h⟩

/-- Claim C6 witness: on the empty cache a productive fetch is consulted
exactly on the miss, and after a doubly-failed fetch the key is still absent
from the resulting cache. -/
theorem claim_C6_witness :
    ((search_with_fallback demoJf demoBf [] 0 3 "q" 1).jsonCalled = true ↔
      (get_cached_results [] 0 "q" 1).1 = none) ∧
    dbLookup (search_with_fallback emptyF emptyF [] 0 3 "q" 1).db
      (get_cache_key "q" 1) = none :=
  ⟨(claim_C6 demoJf demoBf demoJf demoBf [] 0 3 0 3 "q" 1
      (by intro row hr; cases hr)).1,
    ((claim_C6 emptyF emptyF demoJf demoBf [] 0 3 0 3 "q" 1
      (by intro row hr; cases hr)).2.2.1 (by decide)).1⟩

/-- Claim C7: the record builders return no record whenever the resolved
name or resolved url is empty and otherwise exactly one record whose name
and url are non-empty; no surfaced record has an empty name or url; and a
failing item is dropped without affecting its siblings. -/
theorem claim_C7 :
    (∀ it : RawItem, resolve_name it = "" ∨ resolve_url it = "" →
      build_json_item it = none) ∧
    (∀ it : RawItem, resolve_name it ≠ "" → resolve_url it ≠ "" →
      ∃ r, build_json_item it = some r ∧ r.name ≠ "" ∧ r.url ≠ "") ∧
    (∀ (items : List RawItem) (r : ProductRecord), r ∈ search_json_results items →
      r.name ≠ "" ∧ r.url ≠ "") ∧
    (∀ (pre post : List RawItem) (bad : RawItem), build_json_item bad = none →
      search_json_results (pre ++ bad :: post) =
        search_json_results pre ++ search_json_results post) ∧
    (∀ e : BrowserItem, e.name = "" ∨ normalize_url e.href = "" →
      build_browser_item e = none) ∧
    (∀ e : BrowserItem, e.name ≠ "" → normalize_url e.href ≠ "" →
      ∃ r, build_browser_item e = some r ∧ r.name ≠ "" ∧ r.url ≠ "") := by
  refine ⟨fun it h => ?_, fun it h1 h2 => ?_, fun items r hr => ?_,
    fun pre post bad h => ?_, fun e h => ?_, fun e h1 h2 => ?_⟩
  · rcases h with h | h <;> simp [build_json_item, h]
  · exact ⟨⟨resolve_name it, resolve_price it, resolve_stock it, resolve_url it,
      "json"⟩, by simp [build_json_item, h1, h2], h1, h2⟩
  · simp only [search_json_results, List.mem_filterMap] at hr
    obtain ⟨it, _, hb⟩ := hr
    by_cases hc : resolve_name it ≠ "" ∧ resolve_url it ≠ ""
    · simp only [build_json_item, if_pos hc] at hb
      cases hb
      exact hc
    · simp [build_json_item, hc] at hb
  · simp [search_json_results, List.filterMap_append, List.filterMap_cons, h]
  · rcases h with h | h <;> simp [build_browser_item, h]
  · exact ⟨⟨strTake 200 e.name, _parse_price e.priceText, e.stockText.getD "Available",
      normalize_url e.href, "browser"⟩, by simp [build_browser_item, h1, h2],
      strTake_ne_empty h1 (by norm_num), h2⟩

/-- Claim C7 witness: the builder drops a concrete item with no url field and
builds exactly one valid record from a concrete complete item. -/
theorem claim_C7_witness :
    build_json_item noUrlItem = none ∧
    (∃ r, build_json_item demoItem = some r ∧ r.name ≠ "" ∧ r.url ≠ "") :=
  ⟨claim_C7.1 noUrlItem (Or.inr (by decide)),
    claim_C7.2.1 demoItem (by decide) (by decide)⟩

/-- Claim C8: normalize("1,234.50") = 1234.50, normalize("Rs. 2500") = 2500.0,
normalize("") yields no value, and for every input whose cleaned text matches
no numeric pattern (equivalently, contains no digit — the last pattern `\d+`
matches any digit) the normalizer yields no value rather than an error. -/
theorem claim_C8 :
    _parse_price "1,234.50" = some (1234.5 : ℚ) ∧
    _parse_price "Rs. 2500" = some 2500 ∧
    _parse_price "" = none ∧
    ∀ s : String, (∀ c ∈ cleanedPrice s, isDigitCh c = false) →
      _parse_price s = none := by
  refine ⟨?_, ?_, ?_, fun s h => ?_⟩
  · have hg : findPriceGroup (cleanedPrice "1,234.50") =
        some ['1', ',', '2', '3', '4', '.', '5', '0'] := by decide
    rw [_parse_price, if_neg (by decide : ¬ ("1,234.50" : String) = ""), hg]
    have h2 : groupNum ['1', ',', '2', '3', '4', '.', '5', '0'] = 123450 := by decide
    have h3 : groupScale ['1', ',', '2', '3', '4', '.', '5', '0'] = 2 := by decide
    simp [groupToRat, h2, h3]
    norm_num
  · have hg : findPriceGroup (cleanedPrice "Rs. 2500") = some ['2', '5', '0', '0'] := by
      decide
    rw [_parse_price, if_neg (by decide : ¬ ("Rs. 2500" : String) = ""), hg]
    have h2 : groupNum ['2', '5', '0', '0'] = 2500 := by decide
    have h3 : groupScale ['2', '5', '0', '0'] = 0 := by decide
    simp [groupToRat, h2, h3]
  · rw [_parse_price, if_pos rfl]
  · rw [_parse_price]
    by_cases hs : s = ""
    · rw [if_pos hs]
    · rw [if_neg hs]
      have hfind : findPriceGroup (cleanedPrice s) = none := by
        unfold findPriceGroup
        rw [reSearch_noDigit (fun l hl => p1At_noDigit hl) _ h,
          reSearch_noDigit (fun l hl => p2At_noDigit hl) _ h,
          reSearch_noDigit (fun l hl => p3At_noDigit hl) _ h,
          reSearch_noDigit (fun l hl => p4At_noDigit hl) _ h]
      rw [hfind]
      rfl

/-- Claim C8 witness: the no-match clause at the digit-free input "abc". -/
theorem claim_C8_witness : _parse_price "abc" = none :=
  claim_C8.2.2.2 "abc" (by decide)

/-- Claim C9 counterexample: the claim fails at the rendered-path normalizer
of server_merged.py lines 233-235, which checks only the single leading
slash: the protocol-relative value "//x" is rewritten to
"https://www.daraz.pk//x" instead of "https://x". -/
theorem claim_C9_counterexample :
    normalize_url_browser_merged "//x" = "https://www.daraz.pk//x" ∧
    normalize_url_browser_merged "//x" ≠ "https:" ++ "//x" := by
  refine ⟨by decide, by decide⟩

/-- Claim C9 (amended): the robust builders and the merged structured
fetcher rewrite "//"-values to "https:" + value, "/"-values to the catalog
origin + value, and leave other (already absolute) values unchanged; the
merged rendered fetcher instead prefixes the origin to every value starting
with "/" — protocol-relative values included — and leaves others unchanged. -/
theorem claim_C9 (u : String) :
    normalize_url "//x" = "https://x" ∧
    normalize_url "/p/1" = "https://www.daraz.pk/p/1" ∧
    (pyStartsWith u "//" = true → normalize_url u = "https:" ++ u) ∧
    (pyStartsWith u "//" = false → pyStartsWith u "/" = true →
      normalize_url u = "https://www.daraz.pk" ++ u) ∧
    (pyStartsWith u "/" = false → normalize_url u = u) ∧
    (pyStartsWith u "/" = true →
      normalize_url_browser_merged u = "https://www.daraz.pk" ++ u) ∧
    (pyStartsWith u "/" = false → normalize_url_browser_merged u = u) := by
  refine ⟨by decide, by decide, fun h => ?_, fun h1 h2 => ?_, fun h => ?_,
    fun h => ?_, fun h => ?_⟩
  · simp [normalize_url, h]
  · simp [normalize_url, h1, h2]
  · have h2 : pyStartsWith u "//" = false := by
      rcases hb : pyStartsWith u "//" with _ | _
      · rfl
      · rw [pyStartsWith_slash_of_dslash hb] at h; cases h
    simp [normalize_url, h, h2]
  · simp [normalize_url_browser_merged, h]
  · simp [normalize_url_browser_merged, h]

/-- Claim C9 witness: the three rewriting clauses at concrete urls. -/
theorem claim_C9_witness :
    normalize_url "//abc" = "https:" ++ "//abc" ∧
    normalize_url "https://a.b/c" = "https://a.b/c" ∧
    normalize_url_browser_merged "/p" = "https://www.daraz.pk" ++ "/p" :=
  ⟨(claim_C9 "//abc").2.2.1 (by decide),
    (claim_C9 "https://a.b/c").2.2.2.2.1 (by decide),
    (claim_C9 "/p").2.2.2.2.2.1 (by decide)⟩

/-- Claim C10: the price normalizer is total and every value it yields is
non-negative — the cleaning keeps minus signs but no pattern can capture
one, so a negative price is never produced. -/
theorem claim_C10 (s : String) (q : ℚ) (h : _parse_price s = some q) :
    0 ≤ q := by
  unfold _parse_price at h
  split at h
  · cases h
  · rcases Option.map_eq_some'.mp h with ⟨g, _, hf⟩
    rw [← hf]
    exact groupToRat_nonneg g

/-- Claim C10 witness: non-negativity of the parse of the minus-bearing
input "-5", which parses to 5. -/
theorem claim_C10_witness : (0 : ℚ) ≤ 5 :=
  claim_C10 "-5" 5 (by
    have hg : findPriceGroup (cleanedPrice "-5") = some ['5'] := by decide
    rw [_parse_price, if_neg (by decide : ¬ ("-5" : String) = ""), hg]
    have h2 : groupNum ['5'] = 5 := by decide
    have h3 : groupScale ['5'] = 0 := by decide
    simp [groupToRat, h2, h3])
